import Mathlib

/-!
Verification of the PPG vital-signs estimator of this repository.

The signal-processing pipeline lives in two source files:
  * `src/unnamed/part_001` (a heart-rate monitor component, namespace
    `HeartMonitor` below): `movingAverage`, `normalizeSignal`, `findPeaks`,
    `calculateHeartRate`, `calculateHRV`, `stopRecording`.
  * `src/phoneecomedai-main/components/analysis/ai-processing-visualizer.tsx`
    (namespace `AIViz` below): `normalizeSignal` (epsilon variant),
    `findPeaksEnhanced`, `calculateHeartRateEnhanced`, `calculateSpO2`,
    `stopMeasurement`.

Modelling conventions.
  * JavaScript numbers are modelled exactly: rationals (`ℚ`) where the code
    is sqrt-free, reals (`ℝ`) where `Math.sqrt` occurs.  The peak detectors
    are defined once over an arbitrary `LinearOrderedField` so that the same
    definition serves the rational instance (on which counterexamples are
    evaluated by unfolding with `norm_num`) and the real instance (needed by
    the adaptive threshold, which takes a square root).
  * A JavaScript expression that would produce `NaN`/`Infinity` (0/0 from an
    empty reduce, an out-of-bounds array read, a flat-signal normalization)
    is modelled as `none : Option _`; a finite value `v` as `some v`.
  * `Math.round` rounds half up: `jsRound x = ⌊x + 1/2⌋`.
  * `reduce((a, b) => a + b, 0)` is `listSum` (a left fold from 0);
    `Math.min(...data)` / `Math.max(...data)` are `listMin` / `listMax`
    (left folds from the head; their value on `[]` is never used by any
    theorem below because the sources only apply them to sampled windows).
-/

/-- `data.reduce((a, b) => a + b, 0)`. -/
def listSum {K : Type} [LinearOrderedField K] (l : List K) : K :=
  l.foldl (· + ·) 0

/-- `Math.min(...data)`: fold of `min` over the list (the `[]` case is a
placeholder never relied upon; JS would give `Infinity`). -/
def listMin {K : Type} [LinearOrderedField K] : List K → K
  | [] => 0
  | x :: xs => xs.foldl min x

/-- `Math.max(...data)`: fold of `max` over the list (the `[]` case is a
placeholder never relied upon; JS would give `-Infinity`). -/
def listMax {K : Type} [LinearOrderedField K] : List K → K
  | [] => 0
  | x :: xs => xs.foldl max x

/-- `movingAverage(data, windowSize)` from both source files: at each index
`i` the mean of the trailing window `data.slice(max(0, i-windowSize+1), i+1)`.
Natural-number subtraction plays the role of `Math.max(0, ·)`. -/
def movingAverage {K : Type} [LinearOrderedField K] (data : List K) (windowSize : ℕ) :
    List K :=
  (List.range data.length).map (fun i =>
    let start := i + 1 - windowSize
    listSum ((data.drop start).take (i + 1 - start)) / ((i + 1 - start : ℕ) : K))

/-- The peak test of `findPeaks`/`findPeaksEnhanced` at index `i` of the
smoothed signal `s`: the sample strictly exceeds the threshold and its two
neighbours on each side. -/
def isPeakAt {K : Type} [LinearOrderedField K] (s : List K) (threshold : K) (i : ℕ) :
    Prop :=
  threshold < s.getD i 0 ∧
    s.getD (i - 1) 0 < s.getD i 0 ∧ s.getD (i - 2) 0 < s.getD i 0 ∧
    s.getD (i + 1) 0 < s.getD i 0 ∧ s.getD (i + 2) 0 < s.getD i 0

instance {K : Type} [LinearOrderedField K] (s : List K) (t : K) (i : ℕ) :
    Decidable (isPeakAt s t i) := by
  unfold isPeakAt; infer_instance

/-- The accepting loop of `findPeaks` (both source files): `idxs` is the list
of loop indices still to visit and `last` the `lastPeakIndex` accumulator,
initially `-minDistance`. -/
def findPeaksAux {K : Type} [LinearOrderedField K] (s : List K) (threshold : K)
    (minDistance : ℕ) : List ℕ → ℤ → List ℕ
  | [], _ => []
  | i :: rest, last =>
    if isPeakAt s threshold i ∧ (minDistance : ℤ) ≤ (i : ℤ) - last then
      i :: findPeaksAux s threshold minDistance rest (i : ℤ)
    else
      findPeaksAux s threshold minDistance rest last

/-- `findPeaks(data, threshold, minDistance)` from `src/unnamed/part_001`
(lines 125-142; the copy in `ai-processing-visualizer.tsx` is identical up to
its default `minDistance`): smooth with a 3-wide moving average, then accept
local maxima above the threshold at least `minDistance` apart, scanning
`i = 2 .. length - 3`. -/
def findPeaks {K : Type} [LinearOrderedField K] (data : List K) (threshold : K)
    (minDistance : ℕ) : List ℕ :=
  let s := movingAverage data 3
  findPeaksAux s threshold minDistance (List.range' 2 (s.length - 4))
    (-(minDistance : ℤ))

/-- The sub-sample refinement of `findPeaksEnhanced`: with `a, b, c` the
smoothed samples at `i-1, i, i+1`, the offset `(a - c) / (2(a - 2b + c))`.
The source has no divide-by-zero guard; the theorems below show the
denominator is strictly negative at every accepted peak. -/
def quadOffset {K : Type} [LinearOrderedField K] (s : List K) (i : ℕ) : K :=
  let a := s.getD (i - 1) 0
  let b := s.getD i 0
  let c := s.getD (i + 1) 0
  (a - c) / (2 * (a - 2 * b + c))

/-- The accepting loop of `findPeaksEnhanced`
(`ai-processing-visualizer.tsx` lines 776-816): as `findPeaksAux`, but each
accepted index is pushed with its fractional refinement added. -/
def findPeaksEnhancedAux {K : Type} [LinearOrderedField K] (s : List K) (threshold : K)
    (minDistance : ℕ) : List ℕ → ℤ → List K
  | [], _ => []
  | i :: rest, last =>
    if isPeakAt s threshold i ∧ (minDistance : ℤ) ≤ (i : ℤ) - last then
      ((i : K) + quadOffset s i) :: findPeaksEnhancedAux s threshold minDistance rest (i : ℤ)
    else
      findPeaksEnhancedAux s threshold minDistance rest last

/-- `findPeaksEnhanced(data, minDistance, ·)` with the threshold abstracted
as a parameter: the source either uses the fixed threshold `0.5` or the
adaptive `mean + 0.8·stddev` (see `findPeaksEnhancedAdaptive`); every claim
about the detector quantifies over the threshold policy. -/
def findPeaksEnhanced {K : Type} [LinearOrderedField K] (data : List K)
    (minDistance : ℕ) (threshold : K) : List K :=
  let s := movingAverage data 3
  findPeaksEnhancedAux s threshold minDistance (List.range' 2 (s.length - 4))
    (-(minDistance : ℤ))

/-- The adaptive threshold of `findPeaksEnhanced`: `mean + 0.8·stddev` of the
smoothed signal. -/
noncomputable def adaptiveThresholdVal (s : List ℝ) : ℝ :=
  let mean := listSum s / (s.length : ℝ)
  let variance := listSum (s.map (fun b => (b - mean) ^ 2)) / (s.length : ℝ)
  mean + 0.8 * Real.sqrt variance

/-- `findPeaksEnhanced(data, minDistance, adaptiveThreshold)` exactly as in
the source, with its boolean threshold-policy flag. -/
noncomputable def findPeaksEnhancedAdaptive (data : List ℝ) (minDistance : ℕ)
    (adaptive : Bool) : List ℝ :=
  let s := movingAverage data 3
  findPeaksEnhanced data minDistance
    (if adaptive then adaptiveThresholdVal s else 0.5)

namespace HeartMonitor

/-- `normalizeSignal` from `src/unnamed/part_001` lines 102-106:
`x ↦ (x - min) / (max - min)`.  When `max = min` the JS division is `0/0 =
NaN`, modelled as `none`. -/
def normalizeSignal (data : List ℚ) : List (Option ℚ) :=
  let mn := listMin data
  let mx := listMax data
  data.map (fun x => if mx - mn = 0 then none else some ((x - mn) / (mx - mn)))

end HeartMonitor

namespace AIViz

/-- `normalizeSignal` from `ai-processing-visualizer.tsx` lines 178-183:
`x ↦ (x - min) / (max - min + 0.0001)`.  The epsilon keeps the denominator
positive, so the result is always finite. -/
def normalizeSignal (data : List ℚ) : List ℚ :=
  let mn := listMin data
  let mx := listMax data
  data.map (fun x => (x - mn) / (mx - mn + 1 / 10000))

end AIViz

/-- `Math.round`: rounds half toward positive infinity. -/
noncomputable def jsRound (x : ℝ) : ℤ := ⌊x + 1 / 2⌋

/-- `Math.round` as a real-valued operation (JS numbers stay numbers). -/
noncomputable def jsRoundR (x : ℝ) : ℝ := ((jsRound x : ℤ) : ℝ)

/-- A JS array read `l[i]`: `none` models the `undefined` an out-of-range
index yields (which turns any arithmetic on it into `NaN`). -/
def jsIndex (l : List ℝ) (i : ℤ) : Option ℝ :=
  if 0 ≤ i ∧ i < (l.length : ℤ) then some (l.getD i.toNat 0) else none

/-- Arithmetic mean `reduce(+)/length`, as written throughout both files. -/
def meanOf {K : Type} [LinearOrderedField K] (l : List K) : K :=
  listSum l / (l.length : K)

/-- Population variance `reduce((a,b) => a + (b-mean)^2, 0)/length`, as
written throughout both files. -/
def varOf {K : Type} [LinearOrderedField K] (l : List K) : K :=
  listSum (l.map (fun b => (b - meanOf l) ^ 2)) / (l.length : K)

/-- `Math.sqrt` of `varOf`: the standard deviation the sources compute. -/
noncomputable def stdOf (l : List ℝ) : ℝ := Real.sqrt (varOf l)

/-- The consecutive peak-to-peak intervals `peaks[i] - peaks[i-1]`. -/
def intervalsOf (peaks : List ℝ) : List ℝ :=
  List.zipWith (fun a b => a - b) peaks.tail peaks

/-- The intervals both rate estimators retain: within two standard
deviations of the interval mean and strictly inside the physiological range
`(0.4·fps, 1.5·fps)` (the source comparisons are strict). -/
noncomputable def validIntervalsOf (peaks : List ℝ) (fps : ℝ) : List ℝ :=
  (intervalsOf peaks).filter (fun i =>
    decide (|i - meanOf (intervalsOf peaks)| ≤ 2 * stdOf (intervalsOf peaks) ∧
      fps * 0.4 < i ∧ i < fps * 1.5))

/-- `Math.abs(1 - peakDensity/expectedDensity)` with
`peakDensity = peaks.length/(totalFrames/fps)` and
`expectedDensity = bpm/60`. -/
noncomputable def densityErrorOf (peaks : List ℝ) (totalFrames fps bpm : ℝ) : ℝ :=
  |1 - ((peaks.length : ℝ) / (totalFrames / fps)) / (bpm / 60)|

/-- `Math.max(0, Math.min(100, x))`: the confidence clamp. -/
noncomputable def clampPct (x : ℝ) : ℝ := max 0 (min 100 x)

namespace HeartMonitor

/-- `calculateHeartRate(peaks, totalFrames, fps)` from `src/unnamed/part_001`
lines 144-180.  Note two points the theorems below turn on: the
physiological-range comparisons are strict (`i > fps*0.4 && i < fps*1.5`),
and `intervalVariability` divides the standard deviation of ALL intervals by
their mean (both computed before outlier filtering). -/
noncomputable def calculateHeartRate (peaks : List ℝ) (totalFrames fps : ℝ) :
    ℝ × ℝ :=
  if peaks.length < 3 then (0, 0) else
  let intervals := (List.range (peaks.length - 1)).map
    (fun i => peaks.getD (i + 1) 0 - peaks.getD i 0)
  let mean := listSum intervals / (intervals.length : ℝ)
  let stdDev := Real.sqrt
    (listSum (intervals.map (fun b => (b - mean) ^ 2)) / (intervals.length : ℝ))
  let validIntervals := intervals.filter (fun i =>
    decide (|i - mean| ≤ 2 * stdDev ∧ fps * 0.4 < i ∧ i < fps * 1.5))
  if validIntervals.length < 2 then (0, 0) else
  let avgInterval := listSum validIntervals / (validIntervals.length : ℝ)
  let bpm := jsRound (fps * 60 / avgInterval)
  let intervalVariability := stdDev / mean
  let peakDensity := (peaks.length : ℝ) / (totalFrames / fps)
  let expectedDensity := (bpm : ℝ) / 60
  let densityError := |1 - peakDensity / expectedDensity|
  ((bpm : ℝ),
    max 0 (min 100 (100 * (1 - intervalVariability) * (1 - densityError))))

/-- The result record of `calculateHRV`; `none` models a `NaN` component. -/
structure HRVResult where
  sdnn : Option ℝ
  rmssd : Option ℝ
  pnn50 : Option ℝ

/-- `calculateHRV(peaks, fps)` from `src/unnamed/part_001` lines 308-332.
With no interval (fewer than 2 peaks) every statistic is `0/0 = NaN`; with a
single interval `successiveDiffs` is empty and only `rmssd` is `NaN`. -/
noncomputable def calculateHRV (peaks : List ℝ) (fps : ℝ) : HRVResult :=
  let intervals := List.zipWith (fun peak prev => (peak - prev) * (1000 / fps))
    peaks.tail peaks
  if intervals.length = 0 then ⟨none, none, none⟩ else
  let mean := listSum intervals / (intervals.length : ℝ)
  let sdnn := Real.sqrt
    (listSum (intervals.map (fun i => (i - mean) ^ 2)) / (intervals.length : ℝ))
  let successiveDiffs := List.zipWith (fun interval prev => (interval - prev) ^ 2)
    intervals.tail intervals
  let rmssd : Option ℝ :=
    if successiveDiffs.length = 0 then none
    else some (Real.sqrt (listSum successiveDiffs / (successiveDiffs.length : ℝ)))
  let nn50 := ((List.zipWith (fun interval prev => |interval - prev|)
    intervals.tail intervals).filter (fun x => decide (50 < x))).length
  ⟨some sdnn, rmssd, some ((nn50 : ℝ) / (intervals.length : ℝ) * 100)⟩

end HeartMonitor

namespace AIViz

/-- The `signalStrength` numerator of `calculateHeartRateEnhanced`:
`peaks.reduce((sum, peakIdx) => peakIdx < totalFrames ?
sum + frameData[Math.floor(peakIdx)] : sum, 0)`.  An out-of-range read inside
the sum makes the whole sum `NaN` (`none`). -/
noncomputable def signalSum (frameData : List ℝ) (totalFrames : ℝ)
    (peaks : List ℝ) : Option ℝ :=
  peaks.foldl
    (fun acc p =>
      if p < totalFrames then
        match acc, jsIndex frameData ⌊p⌋ with
        | some s, some v => some (s + v)
        | _, _ => none
      else acc)
    (some 0)

/-- `calculateHeartRateEnhanced(peaks, totalFrames, fps)` from
`ai-processing-visualizer.tsx` lines 818-871.  `frameData` stands for the
component ref `frameDataRef.current` the confidence reads.  The confidence
is `Option`-valued because the signal-strength reduce can hit an undefined
array slot. -/
noncomputable def calculateHeartRateEnhanced (peaks : List ℝ)
    (totalFrames fps : ℝ) (frameData : List ℝ) : ℝ × Option ℝ :=
  if peaks.length < 4 then (0, some 0) else
  let intervals := (List.range (peaks.length - 1)).map
    (fun i => peaks.getD (i + 1) 0 - peaks.getD i 0)
  let mean := listSum intervals / (intervals.length : ℝ)
  let stdDev := Real.sqrt
    (listSum (intervals.map (fun b => (b - mean) ^ 2)) / (intervals.length : ℝ))
  let maxZScore : ℝ := 2
  let validIntervals := intervals.filter (fun i =>
    decide (|i - mean| ≤ maxZScore * stdDev ∧ fps * 0.4 < i ∧ i < fps * 1.5))
  if validIntervals.length < 3 then (0, some 0) else
  let filteredMean := listSum validIntervals / (validIntervals.length : ℝ)
  let filteredStdDev := Real.sqrt
    (listSum (validIntervals.map (fun b => (b - filteredMean) ^ 2)) /
      (validIntervals.length : ℝ))
  let bpm := jsRound (fps * 60 / filteredMean)
  let intervalVariability := filteredStdDev / filteredMean
  let peakDensity := (peaks.length : ℝ) / (totalFrames / fps)
  let expectedDensity := (bpm : ℝ) / 60
  let densityError := |1 - peakDensity / expectedDensity|
  ((bpm : ℝ),
    (signalSum frameData totalFrames peaks).map (fun ss =>
      jsRoundR (max 0 (min 100
        (100 * (1 - intervalVariability) * (1 - densityError) *
          min 1 (ss / (peaks.length : ℝ) / 100))))))

/-- `calculateSpO2(redValues, frameCount)` from `ai-processing-visualizer.tsx`
lines 2164-2202.  `fingerMode` models `measurementMode.includes('finger')`
and `u ∈ [0,1)` the `Math.random()` draw behind the jitter term.  The first
component is the SpO2 reading (`none` = `NaN`: a flat window makes
`rValue = 0/0`); the branch for a zero DC with a positive AC replays the JS
`ac/0 = Infinity` arithmetic (`110 - 25·∞ = -∞`, clamped to 70), though no
input reaches it. -/
noncomputable def calculateSpO2 (redValues : List ℚ) (frameCount : ℝ)
    (fingerMode : Bool) (u : ℝ) : Option ℝ × ℝ :=
  if redValues.length < 60 ∨ fingerMode = false then (some 0, 0) else
  let normalizedRed := normalizeSignal redValues
  let mean : ℚ := listSum normalizedRed / (normalizedRed.length : ℚ)
  let acComponent : ℝ := Real.sqrt
    (((listSum (normalizedRed.map (fun b => (b - mean) ^ 2)) /
      (normalizedRed.length : ℚ) : ℚ)) : ℝ)
  let dcComponent : ℚ := mean
  let confidence : ℝ → ℝ := fun penalty =>
    min 100 (max 0 (50 + frameCount / 60 * 10 +
      (if (0.05 : ℝ) < acComponent then 20 else 0) - penalty))
  if dcComponent = 0 then
    if acComponent = 0 then (none, jsRoundR (confidence 0))
    else (some 70, jsRoundR (confidence 30))
  else
    let rValue : ℝ := acComponent / ((dcComponent : ℚ) : ℝ)
    let calculatedSpo2 : ℝ := 110 - 25 * rValue
    let naturalVariation := (u * 2 - 1) * 0.5
    let normalBias : ℝ :=
      if calculatedSpo2 < 95 then 0.5
      else if 99 < calculatedSpo2 then -0.3 else 0
    let withNoise := calculatedSpo2 + naturalVariation + normalBias
    let clamped := min 100 (max 70 withNoise)
    (some (jsRoundR (clamped * 10) / 10),
      jsRoundR (confidence (if (0.7 : ℝ) < rValue then 30 else 0)))

end AIViz

/-- The heart-rate estimator exactly as claim C1 words it: inclusive
physiological bounds `0.4·fps ≤ i ≤ 1.5·fps` and confidence built from the
variability of the SURVIVING intervals.  This definition follows the spec's
words, to be compared against `HeartMonitor.calculateHeartRate`. -/
noncomputable def specHeartRate (peaks : List ℝ) (totalFrames fps : ℝ) :
    ℝ × ℝ :=
  if peaks.length < 3 then (0, 0) else
  let intervals := intervalsOf peaks
  let valid := intervals.filter (fun i =>
    decide (|i - meanOf intervals| ≤ 2 * stdOf intervals ∧
      fps * 0.4 ≤ i ∧ i ≤ fps * 1.5))
  if valid.length < 2 then (0, 0) else
  let bpm := jsRoundR (fps * 60 / meanOf valid)
  (bpm,
    clampPct (100 * (1 - stdOf valid / meanOf valid) *
      (1 - densityErrorOf peaks totalFrames fps bpm)))

/-- The SpO2 value as the spec/claim describe it, with the clamp and the
one-decimal rounding the implementation applies:
`round(10·clamp_[70,100](110 - 25·R + jitter + bias)) / 10`. -/
noncomputable def specSpo2 (redValues : List ℚ) (u : ℝ) : ℝ :=
  let nr := AIViz.normalizeSignal redValues
  let r := Real.sqrt ((varOf nr : ℚ) : ℝ) / ((meanOf nr : ℚ) : ℝ)
  let base := 110 - 25 * r
  let bias : ℝ := if base < 95 then 0.5 else if 99 < base then -0.3 else 0
  jsRoundR (10 * min 100 (max 70 (base + (u * 2 - 1) * 0.5 + bias))) / 10

namespace HeartMonitor

/-- The session state of the `HeartRateMonitor` component in
`src/unnamed/part_001` (the pieces `stopRecording` can touch or the claim
mentions: phase flag, pending animation frame, flash flags, sample buffer
and recorded metrics).  History entries carry (heartRate, confidence). -/
structure MonitorState where
  isRecording : Bool
  pendingFrame : Bool
  isFlashOn : Bool
  useScreenFlash : Bool
  frameData : List ℚ
  heartRate : Option ℚ
  confidence : ℚ
  measurementProgress : ℚ
  measurementHistory : List (ℚ × ℚ)
deriving DecidableEq

/-- `toggleFlash(on)` from `src/unnamed/part_001` lines 1184-1208: no-op
without a media stream; with torch support sets `isFlashOn := on`,
`useScreenFlash := false`; otherwise (fallback and error paths alike) sets
both flags to `on`. -/
def toggleFlashState (hasStream torchAvailable flashOn : Bool) (s : MonitorState) :
    MonitorState :=
  if hasStream = false then s
  else if torchAvailable then
    { s with isFlashOn := flashOn, useScreenFlash := false }
  else { s with useScreenFlash := flashOn, isFlashOn := flashOn }

/-- `stopRecording` from `src/unnamed/part_001` lines 1370-1377:
`setIsRecording(false)`, cancel the pending animation frame,
`toggleFlash(false)` (speech feedback is not session state). -/
def stopRecording (hasStream torchAvailable : Bool) (s : MonitorState) :
    MonitorState :=
  toggleFlashState hasStream torchAvailable false
    { s with isRecording := false, pendingFrame := false }

end HeartMonitor

namespace AIViz

/-- The measurement phases of the visualizer component. -/
inductive Phase where
  | idle | calibrating | measuring | analyzing | complete
deriving DecidableEq

/-- The capture modes of the visualizer component. -/
inductive CaptureMode where
  | finger | face | sound
deriving DecidableEq

/-- One entry of `measurementHistory` (timestamp omitted: it comes from the
external clock and no claim mentions it). -/
structure HistoryEntry where
  heartRate : ℚ
  confidence : ℚ
  spo2 : Option ℚ
  respirationRate : Option ℚ
deriving DecidableEq

/-- The session state of the visualizer component (the pieces
`stopMeasurement` can touch or the claim mentions). -/
structure VizState where
  measuring : Bool
  progress : ℚ
  phase : Phase
  flashActive : Bool
  faceTrackingActive : Bool
  heartRate : Option ℚ
  confidence : ℚ
  spo2 : Option ℚ
  respirationRate : Option ℚ
  measurementHistory : List HistoryEntry
deriving DecidableEq

/-- `saveToHistory` from `ai-processing-visualizer.tsx` lines 2004-2017:
returns unchanged unless `heartRate` is truthy AND the (closure-captured)
phase is `complete`; otherwise appends the current reading. -/
def saveToHistory (s : VizState) : VizState :=
  match s.heartRate with
  | none => s
  | some hr =>
    if hr = 0 ∨ s.phase ≠ Phase.complete then s
    else { s with measurementHistory :=
            s.measurementHistory ++ [⟨hr, s.confidence, s.spo2, s.respirationRate⟩] }

/-- `toggleFlash()` from `ai-processing-visualizer.tsx` lines 1516-1537:
no-op without a stream or torch support, otherwise flips `flashActive`. -/
def toggleFlashViz (hasStream torchAvailable : Bool) (s : VizState) : VizState :=
  if hasStream ∧ torchAvailable then { s with flashActive := ¬s.flashActive } else s

/-- `stopMeasurement` from `ai-processing-visualizer.tsx` lines 1835-1866.
React state reads inside the handler see the render-time values, so every
guard reads the ORIGINAL state `s`; in particular `saveToHistory` is applied
to `s`, whose phase is not yet `complete`, so the history append it guards
never fires in the same tick.  The toasts/speech/haptics are not session
state. -/
def stopMeasurement (mode : CaptureMode) (hasStream torchAvailable : Bool)
    (s : VizState) : VizState :=
  let afterFlash :=
    if s.flashActive ∧ mode = CaptureMode.finger
    then toggleFlashViz hasStream torchAvailable s else s
  let afterSave :=
    if s.heartRate ≠ none ∧ s.heartRate ≠ some 0 ∧ 50 < s.confidence
    then saveToHistory s else s
  { s with
    measuring := false
    progress := 100
    phase := Phase.complete
    flashActive := afterFlash.flashActive
    measurementHistory := afterSave.measurementHistory
    faceTrackingActive := false }

end AIViz

/-! ### Length and structure lemmas for the peak detectors -/

theorem movingAverage_length {K : Type} [LinearOrderedField K] (data : List K)
    (w : ℕ) : (movingAverage data w).length = data.length := by
  simp [movingAverage]

theorem findPeaksAux_sublist {K : Type} [LinearOrderedField K] (s : List K)
    (t : K) (d : ℕ) :
    ∀ (idxs : List ℕ) (last : ℤ), List.Sublist (findPeaksAux s t d idxs last) idxs := by
  intro idxs
  induction idxs with
  | nil => intro last; simp [findPeaksAux]
  | cons i rest ih =>
    intro last
    rw [findPeaksAux]
    split
    · exact (ih _).cons₂ i
    · exact (ih _).cons i

theorem findPeaksAux_ge {K : Type} [LinearOrderedField K] (s : List K) (t : K)
    (d : ℕ) :
    ∀ (idxs : List ℕ) (last : ℤ) (p : ℕ),
      p ∈ findPeaksAux s t d idxs last → last + d ≤ (p : ℤ) := by
  intro idxs
  induction idxs with
  | nil => intro last p hp; simp [findPeaksAux] at hp
  | cons i rest ih =>
    intro last p hp
    rw [findPeaksAux] at hp
    split at hp
    case isTrue h =>
      rcases List.mem_cons.mp hp with rfl | hmem
      · omega
      · have := ih (i : ℤ) p hmem
        omega
    case isFalse h => exact ih last p hp

theorem findPeaksAux_chain {K : Type} [LinearOrderedField K] (s : List K)
    (t : K) (d : ℕ) :
    ∀ (idxs : List ℕ) (last : ℤ),
      List.Chain' (fun a b : ℕ => a + d ≤ b) (findPeaksAux s t d idxs last) := by
  intro idxs
  induction idxs with
  | nil => intro last; simp [findPeaksAux]
  | cons i rest ih =>
    intro last
    rw [findPeaksAux]
    split
    · rw [List.chain'_cons']
      refine ⟨?_, ih _⟩
      intro y hy
      have hmem : y ∈ findPeaksAux s t d rest (i : ℤ) := List.mem_of_mem_head? hy
      have := findPeaksAux_ge s t d rest (i : ℤ) y hmem
      omega
    · exact ih _

theorem findPeaks_pairwise {K : Type} [LinearOrderedField K] (data : List K)
    (t : K) (d : ℕ) :
    (findPeaks data t d).Pairwise (fun p q : ℕ => p < q ∧ p + d ≤ q) := by
  rw [findPeaks]
  have h1 : List.Pairwise (· < ·)
      (findPeaksAux (movingAverage data 3) t d
        (List.range' 2 ((movingAverage data 3).length - 4)) (-(d : ℤ))) :=
    List.Pairwise.sublist (findPeaksAux_sublist _ _ _ _ _)
      (List.pairwise_lt_range' 2 _)
  have h2 : List.Pairwise (fun a b : ℕ => a + d ≤ b)
      (findPeaksAux (movingAverage data 3) t d
        (List.range' 2 ((movingAverage data 3).length - 4)) (-(d : ℤ))) := by
    haveI : IsTrans ℕ (fun a b : ℕ => a + d ≤ b) := ⟨fun a b c hab hbc => by omega⟩
    exact List.chain'_iff_pairwise.mp (findPeaksAux_chain _ _ _ _ _)
  exact h1.and h2

theorem quadOffset_denom_neg {K : Type} [LinearOrderedField K] {s : List K}
    {t : K} {i : ℕ} (h : isPeakAt s t i) :
    s.getD (i - 1) 0 - 2 * s.getD i 0 + s.getD (i + 1) 0 < 0 := by
  obtain ⟨-, h1, -, h2, -⟩ := h
  linarith

theorem quadOffset_abs_lt {K : Type} [LinearOrderedField K] {s : List K}
    {t : K} {i : ℕ} (h : isPeakAt s t i) : |quadOffset s i| < 1 / 2 := by
  obtain ⟨-, h1, -, h2, -⟩ := id h
  have hd := quadOffset_denom_neg h
  rw [quadOffset, abs_div]
  have hne : 2 * (s.getD (i - 1) 0 - 2 * s.getD i 0 + s.getD (i + 1) 0) < 0 := by
    linarith
  rw [div_lt_iff₀ (abs_pos.mpr (ne_of_lt hne))]
  rw [abs_of_neg hne]
  rw [abs_lt]
  constructor <;> nlinarith

theorem findPeaksEnhancedAux_mem {K : Type} [LinearOrderedField K] (s : List K)
    (t : K) (d : ℕ) :
    ∀ (idxs : List ℕ) (last : ℤ) (x : K),
      x ∈ findPeaksEnhancedAux s t d idxs last →
        ∃ i : ℕ, i ∈ idxs ∧ last + d ≤ (i : ℤ) ∧ isPeakAt s t i ∧
          x = (i : K) + quadOffset s i := by
  intro idxs
  induction idxs with
  | nil => intro last x hx; simp [findPeaksEnhancedAux] at hx
  | cons i rest ih =>
    intro last x hx
    rw [findPeaksEnhancedAux] at hx
    split at hx
    case isTrue h =>
      rcases List.mem_cons.mp hx with rfl | hmem
      · exact ⟨i, List.mem_cons_self i rest, by omega, h.1, rfl⟩
      · obtain ⟨j, hj, hge, hpk, rfl⟩ := ih (i : ℤ) x hmem
        exact ⟨j, List.mem_cons_of_mem i hj, by omega, hpk, rfl⟩
    case isFalse h =>
      obtain ⟨j, hj, hge, hpk, rfl⟩ := ih last x hx
      exact ⟨j, List.mem_cons_of_mem i hj, hge, hpk, rfl⟩

theorem findPeaksEnhancedAux_chain {K : Type} [LinearOrderedField K] (s : List K)
    (t : K) (d : ℕ) :
    ∀ (idxs : List ℕ), idxs.Pairwise (· < ·) → ∀ (last : ℤ),
      List.Chain' (fun x y : K => x < y ∧ (d : K) - 1 < y - x)
        (findPeaksEnhancedAux s t d idxs last) := by
  intro idxs
  induction idxs with
  | nil => intro _ last; simp [findPeaksEnhancedAux]
  | cons i rest ih =>
    intro hpw last
    rw [findPeaksEnhancedAux]
    split
    case isTrue h =>
      rw [List.chain'_cons']
      refine ⟨?_, ih (List.pairwise_cons.mp hpw).2 (i : ℤ)⟩
      intro y hy
      have hmem : y ∈ findPeaksEnhancedAux s t d rest (i : ℤ) :=
        List.mem_of_mem_head? hy
      obtain ⟨j, hj, hge, hpk, rfl⟩ := findPeaksEnhancedAux_mem s t d rest _ y hmem
      have hij : i < j := (List.pairwise_cons.mp hpw).1 j hj
      have hcast : (i : K) + 1 ≤ (j : K) := by exact_mod_cast hij
      have hdle : (i : K) + (d : K) ≤ (j : K) := by exact_mod_cast hge
      have hb1 := abs_lt.mp (quadOffset_abs_lt (t := t) h.1)
      have hb2 := abs_lt.mp (quadOffset_abs_lt (t := t) hpk)
      constructor
      · linarith
      · linarith
    case isFalse h =>
      exact ih (List.pairwise_cons.mp hpw).2 last

theorem findPeaksEnhanced_pairwise {K : Type} [LinearOrderedField K]
    (data : List K) (d : ℕ) (t : K) :
    (findPeaksEnhanced data d t).Pairwise
      (fun x y : K => x < y ∧ (d : K) - 1 < y - x) := by
  haveI : IsTrans K (fun x y : K => x < y ∧ (d : K) - 1 < y - x) :=
    ⟨fun a b c hab hbc => ⟨lt_trans hab.1 hbc.1, by
      obtain ⟨h1, h2⟩ := hab; obtain ⟨h3, h4⟩ := hbc; linarith⟩⟩
  rw [findPeaksEnhanced]
  exact List.chain'_iff_pairwise.mp
    (findPeaksEnhancedAux_chain _ _ _ _ (List.pairwise_lt_range' 2 _) _)

theorem findPeaks_mem_bounds {K : Type} [LinearOrderedField K] (data : List K)
    (t : K) (d : ℕ) :
    ∀ p ∈ findPeaks data t d, 2 ≤ p ∧ p + 3 ≤ data.length := by
  intro p hp
  have hmem : p ∈ List.range' 2 ((movingAverage data 3).length - 4) :=
    (findPeaksAux_sublist _ _ _ _ _).subset hp
  rw [List.mem_range'_1] at hmem
  have hlen := movingAverage_length data 3
  omega

theorem findPeaksEnhanced_mem_decomp {K : Type} [LinearOrderedField K]
    (data : List K) (d : ℕ) (t : K) :
    ∀ x ∈ findPeaksEnhanced data d t,
      ∃ i : ℕ, 2 ≤ i ∧ i + 3 ≤ data.length ∧
        isPeakAt (movingAverage data 3) t i ∧
        x = (i : K) + quadOffset (movingAverage data 3) i ∧
        |x - (i : K)| < 1 / 2 := by
  intro x hx
  obtain ⟨i, hi, -, hpk, rfl⟩ :=
    findPeaksEnhancedAux_mem (movingAverage data 3) t d _ _ x hx
  rw [List.mem_range'_1] at hi
  have hlen := movingAverage_length data 3
  refine ⟨i, by omega, by omega, hpk, rfl, ?_⟩
  simpa using quadOffset_abs_lt (t := t) hpk

/-! ### Claim C4: peak separation -/

/-- Claim C4, amended.  `findPeaks` (fixed-threshold detector, any threshold,
any `minDistance`) returns strictly increasing indices pairwise at least
`minDistance` apart, as claimed.  For `findPeaksEnhanced` the claim fails:
the returned REFINED indices are strictly increasing, but sub-sample
refinement can move two accepted peaks up to one sample closer than
`minDistance`; what holds is that any two returned peaks differ by more than
`minDistance - 1`.  Stated for the rational instance, the real instance, and
the source's boolean fixed/adaptive threshold policy switch. -/
theorem claim4_peak_separation :
    ∀ (dataQ : List ℚ) (tQ : ℚ) (d : ℕ) (dataR : List ℝ) (tR : ℝ)
      (adaptive : Bool),
      (findPeaks dataQ tQ d).Pairwise (fun p q : ℕ => p < q ∧ p + d ≤ q) ∧
      (findPeaksEnhanced dataQ d tQ).Pairwise
        (fun x y : ℚ => x < y ∧ (d : ℚ) - 1 < y - x) ∧
      (findPeaks dataR tR d).Pairwise (fun p q : ℕ => p < q ∧ p + d ≤ q) ∧
      (findPeaksEnhancedAdaptive dataR d adaptive).Pairwise
        (fun x y : ℝ => x < y ∧ (d : ℝ) - 1 < y - x) := by
  intro dataQ tQ d dataR tR adaptive
  refine ⟨findPeaks_pairwise dataQ tQ d, findPeaksEnhanced_pairwise dataQ d tQ,
    findPeaks_pairwise dataR tR d, ?_⟩
  rw [findPeaksEnhancedAdaptive]
  exact findPeaksEnhanced_pairwise dataR d _

/-- Claim C4, counterexample.  On this 18-sample window with the fixed
threshold `0.5` and `minDistance = 10`, `findPeaksEnhanced` accepts base
indices 5 and 15 and refines them to `5 + 9/22` and `15 - 9/22`, which are
`101/11 < 10` apart: two returned peaks closer than `minDistance`. -/
theorem claim4_counterexample :
    findPeaksEnhanced
        ([0, 0, 0, 0, 0, 3, -3/10, -27/10, 3, -3/10, -27/10, 3, -3/10, -27/10,
          57/10, 0, -57/10, 57/10] : List ℚ) 10 (1/2) = [119/22, 321/22] ∧
      (321/22 - 119/22 : ℚ) < 10 := by
  constructor
  · norm_num [findPeaksEnhanced, movingAverage, listSum, List.range_succ,
      findPeaksEnhancedAux, isPeakAt, List.range', quadOffset]
  · norm_num

/-! ### Claim C6: sub-sample refinement is finite -/

/-- Claim C6.  Every value returned by `findPeaksEnhanced` is an accepted
integer peak index `i` plus the quadratic-interpolation offset
`(a - c)/(2(a - 2b + c))`; at every accepted peak the peak test forces
`a - 2b + c < 0`, so the denominator is never zero and every refined index
is a finite number within `1/2` of `i` (the `a - 2b + c = 0` case the claim
mentions is unreachable, hence the missing source guard is harmless).
Stated for the rational instance and the real fixed/adaptive instance. -/
theorem claim6_subsample_refinement :
    ∀ (dataQ : List ℚ) (d : ℕ) (tQ : ℚ) (dataR : List ℝ) (adaptive : Bool),
      (∀ x ∈ findPeaksEnhanced dataQ d tQ, ∃ i : ℕ,
        isPeakAt (movingAverage dataQ 3) tQ i ∧
        (movingAverage dataQ 3).getD (i - 1) 0 -
            2 * (movingAverage dataQ 3).getD i 0 +
            (movingAverage dataQ 3).getD (i + 1) 0 < 0 ∧
        x = (i : ℚ) + quadOffset (movingAverage dataQ 3) i ∧
        |x - (i : ℚ)| < 1 / 2) ∧
      (∀ x ∈ findPeaksEnhancedAdaptive dataR d adaptive, ∃ i : ℕ,
        (movingAverage dataR 3).getD (i - 1) 0 -
            2 * (movingAverage dataR 3).getD i 0 +
            (movingAverage dataR 3).getD (i + 1) 0 < 0 ∧
        x = (i : ℝ) + quadOffset (movingAverage dataR 3) i ∧
        |x - (i : ℝ)| < 1 / 2) := by
  intro dataQ d tQ dataR adaptive
  constructor
  · intro x hx
    obtain ⟨i, -, -, hpk, hxeq, habs⟩ := findPeaksEnhanced_mem_decomp dataQ d tQ x hx
    exact ⟨i, hpk, quadOffset_denom_neg hpk, hxeq, habs⟩
  · intro x hx
    rw [findPeaksEnhancedAdaptive] at hx
    obtain ⟨i, -, -, hpk, hxeq, habs⟩ := findPeaksEnhanced_mem_decomp dataR d _ x hx
    exact ⟨i, quadOffset_denom_neg hpk, hxeq, habs⟩

/-- Claim C6, witness: on a concrete 8-sample window the single returned
peak `119/22` decomposes as `5 + 9/22` with a negative denominator. -/
theorem claim6_witness :
    ∃ i : ℕ,
      isPeakAt (movingAverage ([0, 0, 0, 0, 0, 3, -3/10, -27/10] : List ℚ) 3)
        (1/2) i ∧
      (movingAverage ([0, 0, 0, 0, 0, 3, -3/10, -27/10] : List ℚ) 3).getD (i - 1) 0 -
          2 * (movingAverage ([0, 0, 0, 0, 0, 3, -3/10, -27/10] : List ℚ) 3).getD i 0 +
          (movingAverage ([0, 0, 0, 0, 0, 3, -3/10, -27/10] : List ℚ) 3).getD (i + 1) 0 < 0 ∧
      (119/22 : ℚ) =
        (i : ℚ) + quadOffset (movingAverage ([0, 0, 0, 0, 0, 3, -3/10, -27/10] : List ℚ) 3) i ∧
      |(119/22 : ℚ) - (i : ℚ)| < 1 / 2 := by
  refine (claim6_subsample_refinement [0, 0, 0, 0, 0, 3, -3/10, -27/10] 10 (1/2)
    [] false).1 (119/22) ?_
  norm_num [findPeaksEnhanced, movingAverage, listSum, List.range_succ,
    findPeaksEnhancedAux, isPeakAt, List.range', quadOffset]

/-! ### Claim C10: returned peak indices avoid the window edges -/

/-- Claim C10.  Both detectors only scan `i = 2 .. length - 3`, so a peak of
`findPeaks` is an integer index in `[2, length - 3]`, and a refined peak of
`findPeaksEnhanced` stays within `1/2` of such an integer index: the first
two and last two samples are never reported.  Stated for the rational
instance, the real instance and the fixed/adaptive policy switch. -/
theorem claim10_peak_index_bounds :
    ∀ (dataQ : List ℚ) (tQ : ℚ) (d : ℕ) (dataR : List ℝ) (tR : ℝ)
      (adaptive : Bool),
      (∀ p ∈ findPeaks dataQ tQ d, 2 ≤ p ∧ p + 3 ≤ dataQ.length) ∧
      (∀ x ∈ findPeaksEnhanced dataQ d tQ,
        ∃ i : ℕ, 2 ≤ i ∧ i + 3 ≤ dataQ.length ∧ |x - (i : ℚ)| < 1 / 2) ∧
      (∀ p ∈ findPeaks dataR tR d, 2 ≤ p ∧ p + 3 ≤ dataR.length) ∧
      (∀ x ∈ findPeaksEnhancedAdaptive dataR d adaptive,
        ∃ i : ℕ, 2 ≤ i ∧ i + 3 ≤ dataR.length ∧ |x - (i : ℝ)| < 1 / 2) := by
  intro dataQ tQ d dataR tR adaptive
  refine ⟨findPeaks_mem_bounds dataQ tQ d, ?_, findPeaks_mem_bounds dataR tR d, ?_⟩
  · intro x hx
    obtain ⟨i, h2, h3, -, -, habs⟩ := findPeaksEnhanced_mem_decomp dataQ d tQ x hx
    exact ⟨i, h2, h3, habs⟩
  · intro x hx
    rw [findPeaksEnhancedAdaptive] at hx
    obtain ⟨i, h2, h3, -, -, habs⟩ := findPeaksEnhanced_mem_decomp dataR d _ x hx
    exact ⟨i, h2, h3, habs⟩

/-- Claim C10, witness: on the concrete 8-sample window, `findPeaks` returns
the index 5 ∈ [2, 5] and `findPeaksEnhanced` returns `119/22`, within `1/2`
of 5. -/
theorem claim10_witness :
    ((2 : ℕ) ≤ 5 ∧ 5 + 3 ≤ ([0, 0, 0, 0, 0, 3, -3/10, -27/10] : List ℚ).length) ∧
      (∃ i : ℕ, 2 ≤ i ∧
        i + 3 ≤ ([0, 0, 0, 0, 0, 3, -3/10, -27/10] : List ℚ).length ∧
        |(119/22 : ℚ) - (i : ℚ)| < 1 / 2) := by
  have h := claim10_peak_index_bounds [0, 0, 0, 0, 0, 3, -3/10, -27/10] (1/2) 10
    [] 0 false
  refine ⟨h.1 5 ?_, h.2.1 (119/22) ?_⟩
  · norm_num [findPeaks, movingAverage, listSum, List.range_succ,
      findPeaksAux, isPeakAt, List.range']
  · norm_num [findPeaksEnhanced, movingAverage, listSum, List.range_succ,
      findPeaksEnhancedAux, isPeakAt, List.range', quadOffset]

/-! ### Extremum lemmas for `listMin`/`listMax` -/

theorem foldl_min_le_init {K : Type} [LinearOrderedField K] :
    ∀ (xs : List K) (x : K), xs.foldl min x ≤ x := by
  intro xs
  induction xs with
  | nil => intro x; simp
  | cons y ys ih =>
    intro x
    calc (y :: ys).foldl min x = ys.foldl min (min x y) := rfl
    _ ≤ min x y := ih _
    _ ≤ x := min_le_left _ _

theorem foldl_min_le_mem {K : Type} [LinearOrderedField K] :
    ∀ (xs : List K) (x a : K), a ∈ xs → xs.foldl min x ≤ a := by
  intro xs
  induction xs with
  | nil => intro x a ha; simp at ha
  | cons y ys ih =>
    intro x a ha
    rcases List.mem_cons.mp ha with rfl | ha
    · calc (a :: ys).foldl min x = ys.foldl min (min x a) := rfl
      _ ≤ min x a := foldl_min_le_init _ _
      _ ≤ a := min_le_right _ _
    · exact ih (min x y) a ha

theorem foldl_min_mem_or {K : Type} [LinearOrderedField K] :
    ∀ (xs : List K) (x : K), xs.foldl min x = x ∨ xs.foldl min x ∈ xs := by
  intro xs
  induction xs with
  | nil => intro x; left; rfl
  | cons y ys ih =>
    intro x
    rcases ih (min x y) with h | h
    · rcases min_choice x y with hc | hc
      · left; rw [show (y :: ys).foldl min x = ys.foldl min (min x y) from rfl, h, hc]
      · right
        rw [show (y :: ys).foldl min x = ys.foldl min (min x y) from rfl, h, hc]
        exact List.mem_cons_self y ys
    · right; exact List.mem_cons_of_mem y h

theorem foldl_max_init_le {K : Type} [LinearOrderedField K] :
    ∀ (xs : List K) (x : K), x ≤ xs.foldl max x := by
  intro xs
  induction xs with
  | nil => intro x; simp
  | cons y ys ih =>
    intro x
    calc x ≤ max x y := le_max_left _ _
    _ ≤ ys.foldl max (max x y) := ih _
    _ = (y :: ys).foldl max x := rfl

theorem foldl_max_mem_le {K : Type} [LinearOrderedField K] :
    ∀ (xs : List K) (x a : K), a ∈ xs → a ≤ xs.foldl max x := by
  intro xs
  induction xs with
  | nil => intro x a ha; simp at ha
  | cons y ys ih =>
    intro x a ha
    rcases List.mem_cons.mp ha with rfl | ha
    · calc a ≤ max x a := le_max_right _ _
      _ ≤ ys.foldl max (max x a) := foldl_max_init_le _ _
      _ = (a :: ys).foldl max x := rfl
    · exact ih (max x y) a ha

theorem foldl_max_mem_or {K : Type} [LinearOrderedField K] :
    ∀ (xs : List K) (x : K), xs.foldl max x = x ∨ xs.foldl max x ∈ xs := by
  intro xs
  induction xs with
  | nil => intro x; left; rfl
  | cons y ys ih =>
    intro x
    rcases ih (max x y) with h | h
    · rcases max_choice x y with hc | hc
      · left; rw [show (y :: ys).foldl max x = ys.foldl max (max x y) from rfl, h, hc]
      · right
        rw [show (y :: ys).foldl max x = ys.foldl max (max x y) from rfl, h, hc]
        exact List.mem_cons_self y ys
    · right; exact List.mem_cons_of_mem y h

theorem listMin_le {K : Type} [LinearOrderedField K] {l : List K} {a : K}
    (h : a ∈ l) : listMin l ≤ a := by
  cases l with
  | nil => simp at h
  | cons x xs =>
    rcases List.mem_cons.mp h with rfl | h
    · exact foldl_min_le_init xs a
    · exact foldl_min_le_mem xs x a h

theorem le_listMax {K : Type} [LinearOrderedField K] {l : List K} {a : K}
    (h : a ∈ l) : a ≤ listMax l := by
  cases l with
  | nil => simp at h
  | cons x xs =>
    rcases List.mem_cons.mp h with rfl | h
    · exact foldl_max_init_le xs a
    · exact foldl_max_mem_le xs x a h

theorem listMin_mem {K : Type} [LinearOrderedField K] {l : List K}
    (h : l ≠ []) : listMin l ∈ l := by
  cases l with
  | nil => exact absurd rfl h
  | cons x xs =>
    rcases foldl_min_mem_or xs x with h' | h'
    · rw [show listMin (x :: xs) = xs.foldl min x from rfl, h']
      exact List.mem_cons_self x xs
    · exact List.mem_cons_of_mem x h'

theorem listMax_mem {K : Type} [LinearOrderedField K] {l : List K}
    (h : l ≠ []) : listMax l ∈ l := by
  cases l with
  | nil => exact absurd rfl h
  | cons x xs =>
    rcases foldl_max_mem_or xs x with h' | h'
    · rw [show listMax (x :: xs) = xs.foldl max x from rfl, h']
      exact List.mem_cons_self x xs
    · exact List.mem_cons_of_mem x h'

/-! ### Claim C3: flat-signal normalization -/

/-- Claim C3, amended.  On a flat (all-equal) window the visualizer's
`normalizeSignal` (denominator `max - min + 0.0001`) does return the all-zero
sequence of the same length, as claimed; but the `part_001` `normalizeSignal`
divides by `max - min = 0` exactly, so every element is the non-finite
`0/0 = NaN` (`none`), not zero. -/
theorem claim3_flat_normalization :
    ∀ (data : List ℚ) (c : ℚ), data ≠ [] → (∀ x ∈ data, x = c) →
      AIViz.normalizeSignal data = List.replicate data.length 0 ∧
      HeartMonitor.normalizeSignal data = List.replicate data.length none := by
  intro data c hne hconst
  have hmn : listMin data = c := hconst _ (listMin_mem hne)
  have hmx : listMax data = c := hconst _ (listMax_mem hne)
  constructor
  · rw [AIViz.normalizeSignal, List.eq_replicate_iff]
    refine ⟨by simp, ?_⟩
    intro b hb
    obtain ⟨x, hx, rfl⟩ := List.mem_map.mp hb
    rw [hmn, hmx, hconst x hx]
    norm_num
  · rw [HeartMonitor.normalizeSignal, List.eq_replicate_iff]
    refine ⟨by simp, ?_⟩
    intro b hb
    obtain ⟨x, hx, rfl⟩ := List.mem_map.mp hb
    rw [hmn, hmx]
    simp

/-- Claim C3, counterexample: the `part_001` `normalizeSignal` on the flat
window `[5, 5]` returns `NaN` (`none`) at every position, not the claimed
all-zero sequence, so the conditioned signal does not stay finite. -/
theorem claim3_counterexample :
    HeartMonitor.normalizeSignal [5, 5] = [none, none] := by
  norm_num [HeartMonitor.normalizeSignal, listMin, listMax]

/-- Claim C3, witness for the amended statement at the flat window `[5, 5]`. -/
theorem claim3_witness :
    AIViz.normalizeSignal [5, 5] =
        List.replicate (([5, 5] : List ℚ).length) 0 ∧
      HeartMonitor.normalizeSignal [5, 5] =
        List.replicate (([5, 5] : List ℚ).length) none :=
  claim3_flat_normalization [5, 5] 5 (by simp) (by intro x hx; (repeat rw [List.mem_cons] at hx); rcases hx with rfl | rfl | h <;> simp_all)

/-! ### Claim C5: normalization range and attainment -/

/-- Claim C5, amended.  For a non-degenerate window (`min < max`): the
`part_001` `normalizeSignal` yields finite values in `[0, 1]` and attains
`some 0` and `some 1` — but AT LEAST once each, not exactly once (duplicated
extremes are all mapped to the same extreme value, see the counterexample);
the visualizer variant yields values in `[0, 1)` and attains `0`, but its
epsilon denominator keeps it from ever attaining `1`. -/
theorem claim5_normalize_range :
    ∀ (data : List ℚ), listMin data < listMax data →
      (∀ y ∈ HeartMonitor.normalizeSignal data,
        ∃ q, y = some q ∧ 0 ≤ q ∧ q ≤ 1) ∧
      some 0 ∈ HeartMonitor.normalizeSignal data ∧
      some 1 ∈ HeartMonitor.normalizeSignal data ∧
      (∀ y ∈ AIViz.normalizeSignal data, 0 ≤ y ∧ y < 1) ∧
      (0 : ℚ) ∈ AIViz.normalizeSignal data := by
  intro data hlt
  have hne : data ≠ [] := by
    rintro rfl
    simp [listMin, listMax] at hlt
  have hpos : 0 < listMax data - listMin data := by linarith
  have hps : 0 < listMax data - listMin data + 1 / 10000 := by linarith
  refine ⟨?_, ?_, ?_, ?_, ?_⟩
  · intro y hy
    rw [HeartMonitor.normalizeSignal] at hy
    obtain ⟨x, hx, rfl⟩ := List.mem_map.mp hy
    rw [if_neg (ne_of_gt hpos)]
    refine ⟨_, rfl, ?_, ?_⟩
    · exact div_nonneg (by linarith [listMin_le hx]) (le_of_lt hpos)
    · rw [div_le_one hpos]
      linarith [le_listMax hx]
  · rw [HeartMonitor.normalizeSignal]
    refine List.mem_map.mpr ⟨listMin data, listMin_mem hne, ?_⟩
    rw [if_neg (ne_of_gt hpos)]
    simp
  · rw [HeartMonitor.normalizeSignal]
    refine List.mem_map.mpr ⟨listMax data, listMax_mem hne, ?_⟩
    rw [if_neg (ne_of_gt hpos)]
    rw [div_self (ne_of_gt hpos)]
  · intro y hy
    rw [AIViz.normalizeSignal] at hy
    obtain ⟨x, hx, rfl⟩ := List.mem_map.mp hy
    constructor
    · exact div_nonneg (by linarith [listMin_le hx]) (le_of_lt hps)
    · rw [div_lt_one hps]
      linarith [le_listMax hx]
  · rw [AIViz.normalizeSignal]
    refine List.mem_map.mpr ⟨listMin data, listMin_mem hne, ?_⟩
    simp

/-- Claim C5, counterexample: on `[0, 1, 1, 0]` (non-degenerate) the
`part_001` `normalizeSignal` attains `some 0` twice and `some 1` twice —
not "exactly once each" as claimed. -/
theorem claim5_counterexample :
    HeartMonitor.normalizeSignal [0, 1, 1, 0] =
        [some 0, some 1, some 1, some 0] ∧
      (HeartMonitor.normalizeSignal [0, 1, 1, 0]).count (some 1) = 2 ∧
      (HeartMonitor.normalizeSignal [0, 1, 1, 0]).count (some 0) = 2 := by
  have h : HeartMonitor.normalizeSignal [0, 1, 1, 0] =
      [some 0, some 1, some 1, some 0] := by
    norm_num [HeartMonitor.normalizeSignal, listMin, listMax]
  refine ⟨h, ?_, ?_⟩ <;>
    rw [h] <;>
    simp [List.count_cons, beq_iff_eq]

/-- Claim C5, witness for the amended statement at the window `[0, 1]`. -/
theorem claim5_witness :
    (∀ y ∈ HeartMonitor.normalizeSignal [0, 1],
        ∃ q, y = some q ∧ 0 ≤ q ∧ q ≤ 1) ∧
      some 0 ∈ HeartMonitor.normalizeSignal [0, 1] ∧
      some 1 ∈ HeartMonitor.normalizeSignal [0, 1] ∧
      (∀ y ∈ AIViz.normalizeSignal [0, 1], 0 ≤ y ∧ y < 1) ∧
      (0 : ℚ) ∈ AIViz.normalizeSignal [0, 1] :=
  claim5_normalize_range [0, 1] (by norm_num [listMin, listMax])

/-! ### Claim C9: stopping an idle session -/

/-- Claim C9, amended.  `stopRecording` (`part_001`) on an already-idle
session (not recording, no pending frame, flash off) leaves the session
state unchanged — including its buffers and recorded metrics — and raises no
error, as claimed.  `stopMeasurement` (visualizer) is NOT a no-op on an idle
session: it unconditionally sets `phase := complete` and `progress := 100`
(all other state is preserved; it still raises no error). -/
theorem claim9_stop_idle :
    (∀ (hasStream torchAvailable : Bool) (s : HeartMonitor.MonitorState),
      s.isRecording = false → s.pendingFrame = false → s.isFlashOn = false →
      s.useScreenFlash = false →
      HeartMonitor.stopRecording hasStream torchAvailable s = s) ∧
    (∀ (mode : AIViz.CaptureMode) (hasStream torchAvailable : Bool)
        (s : AIViz.VizState),
      s.phase = AIViz.Phase.idle → s.measuring = false → s.flashActive = false →
      s.faceTrackingActive = false → s.heartRate = none →
      AIViz.stopMeasurement mode hasStream torchAvailable s =
        { s with phase := AIViz.Phase.complete, progress := 100 }) := by
  constructor
  · intro hasStream torchAvailable s h1 h2 h3 h4
    cases s
    simp only at h1 h2 h3 h4
    subst h1; subst h2; subst h3; subst h4
    rw [HeartMonitor.stopRecording, HeartMonitor.toggleFlashState]
    split_ifs <;> rfl
  · intro mode hasStream torchAvailable s h1 h2 h3 h4 h5
    cases s
    simp only at h1 h2 h3 h4 h5
    subst h1; subst h2; subst h3; subst h4; subst h5
    rw [AIViz.stopMeasurement]
    simp

/-- Claim C9, counterexample: on a concrete idle visualizer session,
`stopMeasurement` changes the state — the phase becomes `complete` (not
`idle`) and the progress becomes 100. -/
theorem claim9_counterexample :
    AIViz.stopMeasurement AIViz.CaptureMode.finger false false
        ⟨false, 0, AIViz.Phase.idle, false, false, none, 0, none, none, []⟩ ≠
      ⟨false, 0, AIViz.Phase.idle, false, false, none, 0, none, none, []⟩ ∧
    (AIViz.stopMeasurement AIViz.CaptureMode.finger false false
        ⟨false, 0, AIViz.Phase.idle, false, false, none, 0, none, none, []⟩).phase =
      AIViz.Phase.complete ∧
    (AIViz.stopMeasurement AIViz.CaptureMode.finger false false
        ⟨false, 0, AIViz.Phase.idle, false, false, none, 0, none, none, []⟩).progress =
      100 := by
  refine ⟨?_, by rw [AIViz.stopMeasurement], by rw [AIViz.stopMeasurement]⟩
  intro h
  have hph := congrArg AIViz.VizState.phase h
  rw [AIViz.stopMeasurement] at hph
  simp at hph

/-- Claim C9, witness for the amended statement at concrete idle sessions of
both components. -/
theorem claim9_witness :
    HeartMonitor.stopRecording true true
        ⟨false, false, false, false, [], none, 0, 0, []⟩ =
      ⟨false, false, false, false, [], none, 0, 0, []⟩ ∧
    AIViz.stopMeasurement AIViz.CaptureMode.finger true true
        ⟨false, 0, AIViz.Phase.idle, false, false, none, 0, none, none, []⟩ =
      ⟨false, 100, AIViz.Phase.complete, false, false, none, 0, none, none, []⟩ :=
  ⟨claim9_stop_idle.1 true true _ rfl rfl rfl rfl,
   claim9_stop_idle.2 AIViz.CaptureMode.finger true true _ rfl rfl rfl rfl rfl⟩

/-! ### Interval bookkeeping lemmas -/

theorem intervals_cons_eq (x : ℝ) :
    ∀ (xs : List ℝ),
      (List.range xs.length).map
          (fun i => (x :: xs).getD (i + 1) 0 - (x :: xs).getD i 0) =
        List.zipWith (fun a b => a - b) xs (x :: xs) := by
  intro xs
  induction xs generalizing x with
  | nil => simp
  | cons y ys ih =>
    rw [List.length_cons, List.range_succ_eq_map, List.map_cons, List.map_map]
    rw [List.zipWith_cons_cons]
    congr 1
    exact ih y

theorem intervals_range_map_eq (l : List ℝ) :
    (List.range (l.length - 1)).map
        (fun i => l.getD (i + 1) 0 - l.getD i 0) = intervalsOf l := by
  cases l with
  | nil => simp [intervalsOf]
  | cons x xs =>
    rw [intervalsOf]
    simpa using intervals_cons_eq x xs

/-! ### Claim C2: insufficient-data sentinels -/

/-- Claim C2.  Both estimators return the `(0, 0)` sentinel (never an error)
whenever fewer than the minimum peaks are supplied (3 basic, 4 enhanced) or
fewer than the minimum intervals survive outlier filtering (2 basic, 3
enhanced). -/
theorem claim2_sentinels :
    ∀ (peaks : List ℝ) (totalFrames fps : ℝ) (frameData : List ℝ),
      (peaks.length < 3 →
        HeartMonitor.calculateHeartRate peaks totalFrames fps = (0, 0)) ∧
      ((validIntervalsOf peaks fps).length < 2 →
        HeartMonitor.calculateHeartRate peaks totalFrames fps = (0, 0)) ∧
      (peaks.length < 4 →
        AIViz.calculateHeartRateEnhanced peaks totalFrames fps frameData =
          (0, some 0)) ∧
      ((validIntervalsOf peaks fps).length < 3 →
        AIViz.calculateHeartRateEnhanced peaks totalFrames fps frameData =
          (0, some 0)) := by
  intro peaks totalFrames fps frameData
  refine ⟨?_, ?_, ?_, ?_⟩
  · intro h
    rw [HeartMonitor.calculateHeartRate, if_pos h]
  · intro h
    rw [HeartMonitor.calculateHeartRate]
    by_cases h3 : peaks.length < 3
    · rw [if_pos h3]
    · rw [if_neg h3]
      simp only [intervals_range_map_eq]
      rw [if_pos]
      simp only [validIntervalsOf, meanOf, varOf, stdOf] at h
      exact h
  · intro h
    rw [AIViz.calculateHeartRateEnhanced, if_pos h]
  · intro h
    rw [AIViz.calculateHeartRateEnhanced]
    by_cases h4 : peaks.length < 4
    · rw [if_pos h4]
    · rw [if_neg h4]
      simp only [intervals_range_map_eq]
      rw [if_pos]
      simp only [validIntervalsOf, meanOf, varOf, stdOf] at h
      exact h

/-- Claim C2, witness: the examples named by the claim,
`heartRate([], 300, 30) = (0, 0)` and `heartRate([10], 300, 30) = (0, 0)`,
plus a window whose three equal 1-sample intervals all fail the
physiological range (too short for `fps = 30`), and the enhanced analogues. -/
theorem claim2_witness :
    HeartMonitor.calculateHeartRate [] 300 30 = (0, 0) ∧
    HeartMonitor.calculateHeartRate [10] 300 30 = (0, 0) ∧
    HeartMonitor.calculateHeartRate [0, 1, 2, 3] 300 30 = (0, 0) ∧
    AIViz.calculateHeartRateEnhanced [10, 20, 30] 300 30 [] = (0, some 0) ∧
    AIViz.calculateHeartRateEnhanced [0, 1, 2, 3] 300 30 [] = (0, some 0) := by
  have hval : validIntervalsOf [0, 1, 2, 3] 30 = [] := by
    have hI : intervalsOf [0, 1, 2, 3] = [1, 1, 1] := by
      norm_num [intervalsOf]
    rw [validIntervalsOf, hI]
    have hm : meanOf ([1, 1, 1] : List ℝ) = 1 := by
      norm_num [meanOf, listSum]
    rw [hm]
    norm_num [List.filter]
  refine ⟨(claim2_sentinels [] 300 30 []).1 (by norm_num),
    (claim2_sentinels [10] 300 30 []).1 (by norm_num),
    (claim2_sentinels [0, 1, 2, 3] 300 30 []).2.1 (by rw [hval]; norm_num),
    (claim2_sentinels [10, 20, 30] 300 30 []).2.2.1 (by norm_num),
    (claim2_sentinels [0, 1, 2, 3] 300 30 []).2.2.2 (by rw [hval]; norm_num)⟩

/-! ### Claim C1: heart-rate estimator characterization -/

/-- Claim C1, counterexample.  On `peaks = [0, 12, 24, 36]` with `fps = 30`
every interval is exactly `12 = 0.4·fps`.  The estimator described by the
claim (inclusive physiological bounds, `specHeartRate`) keeps all three
intervals and returns `(150, 16)`; the implementation's strict comparison
`i > fps*0.4` drops them all and returns the sentinel `(0, 0)`. -/
theorem claim1_counterexample :
    HeartMonitor.calculateHeartRate [0, 12, 24, 36] 300 30 = (0, 0) ∧
      specHeartRate [0, 12, 24, 36] 300 30 = (150, 16) := by
  constructor
  · rw [HeartMonitor.calculateHeartRate]
    norm_num [listSum, List.range_succ, Real.sqrt_zero, List.filter]
  · have hI : intervalsOf [0, 12, 24, 36] = [12, 12, 12] := by
      norm_num [intervalsOf]
    have hm : meanOf ([12, 12, 12] : List ℝ) = 12 := by
      norm_num [meanOf, listSum]
    have hs : stdOf ([12, 12, 12] : List ℝ) = 0 := by
      rw [stdOf]
      have hv : varOf ([12, 12, 12] : List ℝ) = 0 := by
        norm_num [varOf, meanOf, listSum]
      rw [hv, Real.sqrt_zero]
    simp only [specHeartRate, hI, hm, hs]
    norm_num [List.filter, hm, hs, meanOf, listSum, jsRoundR, jsRound,
      clampPct, densityErrorOf]
    rw [show |(21 / 25 : ℝ)| = 21 / 25 from abs_of_nonneg (by norm_num)]
    norm_num

/-- Claim C1, amended.  Whenever enough peaks are supplied and enough
intervals survive, both estimators retain exactly the intervals within 2.0
standard deviations of the interval mean AND STRICTLY inside the
physiological range `(0.4·fps, 1.5·fps)` (`validIntervalsOf`), and return
`bpm = round(fps·60 / mean(validIntervals))`.  The confidence is
`100·(1 − intervalVariability)·(1 − densityError)` clamped to `[0, 100]`,
BUT: the basic estimator computes `intervalVariability` from ALL intervals
(not the surviving ones), while the enhanced estimator uses the surviving
intervals yet additionally multiplies by the signal-strength factor
`min(1, meanPeakBrightness/100)` read from the frame buffer and rounds the
result to an integer. -/
theorem claim1_rate_characterization :
    ∀ (peaks : List ℝ) (totalFrames fps : ℝ) (frameData : List ℝ),
      (3 ≤ peaks.length → 2 ≤ (validIntervalsOf peaks fps).length →
        HeartMonitor.calculateHeartRate peaks totalFrames fps =
          (((jsRound (fps * 60 / meanOf (validIntervalsOf peaks fps)) : ℤ) : ℝ),
            clampPct (100 *
              (1 - stdOf (intervalsOf peaks) / meanOf (intervalsOf peaks)) *
              (1 - densityErrorOf peaks totalFrames fps
                ((jsRound (fps * 60 / meanOf (validIntervalsOf peaks fps)) : ℤ) : ℝ))))) ∧
      (4 ≤ peaks.length → 3 ≤ (validIntervalsOf peaks fps).length →
        AIViz.calculateHeartRateEnhanced peaks totalFrames fps frameData =
          (((jsRound (fps * 60 / meanOf (validIntervalsOf peaks fps)) : ℤ) : ℝ),
            (AIViz.signalSum frameData totalFrames peaks).map (fun ss =>
              jsRoundR (clampPct (100 *
                (1 - stdOf (validIntervalsOf peaks fps) /
                  meanOf (validIntervalsOf peaks fps)) *
                (1 - densityErrorOf peaks totalFrames fps
                  ((jsRound (fps * 60 / meanOf (validIntervalsOf peaks fps)) : ℤ) : ℝ)) *
                min 1 (ss / (peaks.length : ℝ) / 100)))))) := by
  intro peaks totalFrames fps frameData
  constructor
  · intro h3 h2
    rw [HeartMonitor.calculateHeartRate, if_neg (by omega)]
    simp only [intervals_range_map_eq]
    simp only [validIntervalsOf, meanOf, varOf, stdOf] at h2
    rw [if_neg (by omega)]
    simp only [validIntervalsOf, meanOf, varOf, stdOf, densityErrorOf,
      clampPct, jsRoundR]
  · intro h4 h3
    rw [AIViz.calculateHeartRateEnhanced, if_neg (by omega)]
    simp only [intervals_range_map_eq]
    simp only [validIntervalsOf, meanOf, varOf, stdOf] at h3
    rw [if_neg (by omega)]
    simp only [validIntervalsOf, meanOf, varOf, stdOf, densityErrorOf,
      clampPct, jsRoundR]

/-- Claim C1, witness for the amended characterization: four peaks one
sample apart at `fps = 1` (intervals inside the strict physiological range),
ten total frames, uniform frame brightness 100.  Both estimators return
`bpm = 60` with confidence 40. -/
theorem claim1_witness :
    HeartMonitor.calculateHeartRate [0, 1, 2, 3] 10 1 = (60, 40) ∧
      AIViz.calculateHeartRateEnhanced [0, 1, 2, 3] 10 1 [100, 100, 100, 100] =
        (60, some 40) := by
  have hI : intervalsOf [0, 1, 2, 3] = [1, 1, 1] := by
    norm_num [intervalsOf]
  have hm : meanOf ([1, 1, 1] : List ℝ) = 1 := by
    norm_num [meanOf, listSum]
  have hs : stdOf ([1, 1, 1] : List ℝ) = 0 := by
    rw [stdOf]
    have hv : varOf ([1, 1, 1] : List ℝ) = 0 := by
      norm_num [varOf, meanOf, listSum]
    rw [hv, Real.sqrt_zero]
  have hval : validIntervalsOf [0, 1, 2, 3] 1 = [1, 1, 1] := by
    simp only [validIntervalsOf, hI, hm, hs]
    norm_num [List.filter]
  have hss : AIViz.signalSum [100, 100, 100, 100] 10 [0, 1, 2, 3] = some 400 := by
    rw [AIViz.signalSum]
    norm_num [jsIndex, List.foldl]
    simp [Int.toNat_ofNat]
    norm_num
  have h := claim1_rate_characterization [0, 1, 2, 3] 10 1 [100, 100, 100, 100]
  have hb := h.1 (by norm_num) (by rw [hval]; norm_num)
  have he := h.2 (by norm_num) (by rw [hval]; norm_num)
  constructor
  · rw [hb, hval, hI, hm, hs]
    norm_num [jsRound, clampPct, densityErrorOf]
    rw [show |(3 / 5 : ℝ)| = 3 / 5 from abs_of_nonneg (by norm_num)]
    norm_num
  · rw [he, hval, hm, hs, hss]
    norm_num [jsRound, jsRoundR, clampPct, densityErrorOf]
    rw [show |(3 / 5 : ℝ)| = 3 / 5 from abs_of_nonneg (by norm_num)]
    norm_num

/-! ### Sum lemmas and claim C8: HRV on a perfectly regular rhythm -/

theorem foldl_add_shift {K : Type} [LinearOrderedField K] :
    ∀ (l : List K) (a : K), l.foldl (· + ·) a = a + l.foldl (· + ·) 0 := by
  intro l
  induction l with
  | nil => intro a; simp
  | cons x xs ih =>
    intro a
    rw [List.foldl_cons, List.foldl_cons, ih (a + x), ih (0 + x)]
    ring

theorem listSum_cons {K : Type} [LinearOrderedField K] (x : K) (l : List K) :
    listSum (x :: l) = x + listSum l := by
  rw [listSum, listSum, List.foldl_cons, foldl_add_shift l (0 + x)]
  ring

theorem listSum_replicate {K : Type} [LinearOrderedField K] :
    ∀ (n : ℕ) (c : K), listSum (List.replicate n c) = (n : K) * c := by
  intro n
  induction n with
  | zero => intro c; simp [listSum]
  | succ m ih =>
    intro c
    rw [List.replicate_succ, listSum_cons, ih]
    push_cast
    ring

theorem zipWith_replicate_min {A B C : Type} (f : A → B → C) :
    ∀ (m n : ℕ) (a : A) (b : B),
      List.zipWith f (List.replicate m a) (List.replicate n b) =
        List.replicate (min m n) (f a b) := by
  intro m
  induction m with
  | zero => intro n a b; simp
  | succ k ih =>
    intro n a b
    cases n with
    | zero => simp
    | succ j =>
      rw [List.replicate_succ, List.replicate_succ, List.zipWith_cons_cons, ih]
      rw [show min (k + 1) (j + 1) = min k j + 1 by omega, List.replicate_succ]

/-- Claim C8, amended.  `calculateHRV` on a perfectly regular rhythm returns
`rmssd = 0` and `sdnn = 0` PROVIDED there are at least 3 peaks (2 intervals).
With fewer peaks the all-equal-intervals premise is vacuous and the
statistics are `NaN`, not 0 (see the counterexample). -/
theorem claim8_regular_hrv :
    ∀ (peaks : List ℝ) (fps d : ℝ), 0 < fps → 3 ≤ peaks.length →
      (∀ x ∈ intervalsOf peaks, x = d) →
      (HeartMonitor.calculateHRV peaks fps).sdnn = some 0 ∧
        (HeartMonitor.calculateHRV peaks fps).rmssd = some 0 := by
  intro peaks fps d hfps hlen hconst
  have hIeq : List.zipWith (fun peak prev => (peak - prev) * (1000 / fps))
      peaks.tail peaks = (intervalsOf peaks).map (· * (1000 / fps)) := by
    rw [intervalsOf, List.map_zipWith]
  have hconst' : ∀ y ∈ List.zipWith (fun peak prev => (peak - prev) * (1000 / fps))
      peaks.tail peaks, y = d * (1000 / fps) := by
    rw [hIeq]
    intro y hy
    obtain ⟨x, hx, rfl⟩ := List.mem_map.mp hy
    rw [hconst x hx]
  have hrepl := List.eq_replicate_of_mem hconst'
  have hlenI : (List.zipWith (fun peak prev => (peak - prev) * (1000 / fps))
      peaks.tail peaks).length = peaks.length - 1 := by
    rw [List.length_zipWith, List.length_tail]
    omega
  set c := d * (1000 / fps) with hc
  obtain ⟨m, hm⟩ : ∃ m, peaks.length - 1 = m := ⟨_, rfl⟩
  rw [hm] at hlenI
  rw [hlenI] at hrepl
  have hm2 : 2 ≤ m := by omega
  have hmne : (m : ℝ) ≠ 0 := by
    have h0 : (0 : ℝ) < (m : ℝ) := by exact_mod_cast Nat.lt_of_lt_of_le (by norm_num) hm2
    exact ne_of_gt h0
  have hmc : listSum (List.replicate m c) / (m : ℝ) = c := by
    rw [listSum_replicate]
    field_simp
  simp only [HeartMonitor.calculateHRV, hrepl, List.length_replicate,
    List.map_replicate, List.tail_replicate, zipWith_replicate_min, hmc,
    sub_self]
  rw [if_neg (by omega)]
  dsimp only
  constructor
  · norm_num [listSum_replicate, Real.sqrt_zero]
  · rw [if_neg (by omega)]
    norm_num [listSum_replicate, Real.sqrt_zero]

/-- Claim C8, counterexample: `peaks = [0, 10]` has a single interval, so
the intervals are (vacuously) all equal, yet `successiveDiffs` is empty and
`rmssd = sqrt(0/0) = NaN` (`none`), not 0 (while `sdnn` is 0). -/
theorem claim8_counterexample :
    (HeartMonitor.calculateHRV [0, 10] 30).rmssd = none ∧
      (HeartMonitor.calculateHRV [0, 10] 30).sdnn = some 0 := by
  simp only [HeartMonitor.calculateHRV]
  norm_num [listSum, Real.sqrt_zero]

/-- Claim C8, witness for the amended statement: three peaks exactly 10
samples apart at 30 fps. -/
theorem claim8_witness :
    (HeartMonitor.calculateHRV [0, 10, 20] 30).sdnn = some 0 ∧
      (HeartMonitor.calculateHRV [0, 10, 20] 30).rmssd = some 0 := by
  apply claim8_regular_hrv [0, 10, 20] 30 10 (by norm_num) (by norm_num)
  intro x hx
  norm_num [intervalsOf] at hx
  exact hx

/-! ### Claim C7: SpO2 estimation -/

theorem listSum_nonneg {K : Type} [LinearOrderedField K] :
    ∀ (l : List K), (∀ x ∈ l, 0 ≤ x) → 0 ≤ listSum l := by
  intro l
  induction l with
  | nil => intro _; simp [listSum]
  | cons x xs ih =>
    intro h
    rw [listSum_cons]
    have hx := h x (List.mem_cons_self x xs)
    have hxs := ih (fun y hy => h y (List.mem_cons_of_mem x hy))
    linarith

theorem le_listSum_of_mem {K : Type} [LinearOrderedField K] :
    ∀ (l : List K) (a : K), (∀ x ∈ l, 0 ≤ x) → a ∈ l → a ≤ listSum l := by
  intro l
  induction l with
  | nil => intro a _ ha; simp at ha
  | cons x xs ih =>
    intro a h ha
    rw [listSum_cons]
    have hxs : ∀ y ∈ xs, 0 ≤ y := fun y hy => h y (List.mem_cons_of_mem x hy)
    rcases List.mem_cons.mp ha with rfl | ha
    · have := listSum_nonneg xs hxs
      linarith
    · have hx := h x (List.mem_cons_self x xs)
      have := ih a hxs ha
      linarith

theorem normalizeViz_mem_nonneg (data : List ℚ) :
    ∀ y ∈ AIViz.normalizeSignal data, 0 ≤ y := by
  intro y hy
  rw [AIViz.normalizeSignal] at hy
  obtain ⟨x, hx, rfl⟩ := List.mem_map.mp hy
  have h1 := listMin_le hx
  have h2 := le_listMax hx
  have hd : 0 < listMax data - listMin data + 1 / 10000 := by linarith
  exact div_nonneg (by linarith) (le_of_lt hd)

theorem normalizeViz_mean_pos (data : List ℚ)
    (h : listMin data < listMax data) :
    0 < meanOf (AIViz.normalizeSignal data) := by
  have hne : data ≠ [] := by
    rintro rfl
    simp [listMin, listMax] at h
  have hd : 0 < listMax data - listMin data + 1 / 10000 := by linarith
  have hv : (listMax data - listMin data) / (listMax data - listMin data + 1 / 10000) ∈
      AIViz.normalizeSignal data := by
    rw [AIViz.normalizeSignal]
    exact List.mem_map.mpr ⟨listMax data, listMax_mem hne, rfl⟩
  have hvpos : 0 < (listMax data - listMin data) /
      (listMax data - listMin data + 1 / 10000) :=
    div_pos (by linarith) hd
  have hsum : (listMax data - listMin data) /
      (listMax data - listMin data + 1 / 10000) ≤
      listSum (AIViz.normalizeSignal data) :=
    le_listSum_of_mem _ _ (normalizeViz_mem_nonneg data) hv
  have hlen : 0 < ((AIViz.normalizeSignal data).length : ℚ) := by
    have : data.length ≠ 0 := fun hc => hne (List.eq_nil_of_length_eq_zero hc)
    rw [AIViz.normalizeSignal]
    simp only [List.length_map]
    exact_mod_cast Nat.pos_of_ne_zero this
  rw [meanOf]
  exact div_pos (lt_of_lt_of_le hvpos hsum) hlen

theorem jsRoundR_decimal_bounds (X : ℝ) :
    70 ≤ jsRoundR (10 * min 100 (max 70 X)) / 10 ∧
      jsRoundR (10 * min 100 (max 70 X)) / 10 ≤ 100 := by
  have h70 : (70 : ℝ) ≤ min 100 (max 70 X) :=
    le_min (by norm_num) (le_max_left _ _)
  have h100 : min 100 (max 70 X) ≤ 100 := min_le_left _ _
  have hlow : (700 : ℤ) ≤ jsRound (10 * min 100 (max 70 X)) := by
    rw [jsRound]
    apply Int.le_floor.mpr
    push_cast
    linarith
  have hhigh : jsRound (10 * min 100 (max 70 X)) ≤ 1000 := by
    rw [jsRound]
    have h1 : ((⌊10 * min 100 (max 70 X) + 1 / 2⌋ : ℤ) : ℝ) < 1001 := by
      calc ((⌊10 * min 100 (max 70 X) + 1 / 2⌋ : ℤ) : ℝ) ≤
          10 * min 100 (max 70 X) + 1 / 2 := Int.floor_le _
      _ < 1001 := by linarith
    have h2 : (⌊10 * min 100 (max 70 X) + 1 / 2⌋ : ℤ) < 1001 := by
      exact_mod_cast h1
    omega
  rw [jsRoundR]
  constructor
  · rw [le_div_iff₀ (by norm_num : (0 : ℝ) < 10)]
    have hcast : ((700 : ℤ) : ℝ) ≤ ((jsRound (10 * min 100 (max 70 X)) : ℤ) : ℝ) := by
      exact_mod_cast hlow
    push_cast at hcast
    linarith
  · rw [div_le_iff₀ (by norm_num : (0 : ℝ) < 10)]
    have hcast : ((jsRound (10 * min 100 (max 70 X)) : ℤ) : ℝ) ≤ 1000 := by
      exact_mod_cast hhigh
    push_cast at hcast
    linarith

/-- Claim C7, amended.  With fewer than 60 samples (or outside finger mode)
`calculateSpO2` returns the `(0, 0)` sentinel, as claimed.  With at least 60
samples of a NON-FLAT window, the returned SpO2 equals `110 - 25·R` plus the
jitter and bias terms, clamped to `[70, 100]` AND rounded to one decimal
(`specSpo2`), hence it always lies in `[70, 100]` — but on a perfectly flat
window `R = 0/0` is `NaN` and so is the returned SpO2 (see the
counterexample), so the claimed bound needs the non-degeneracy proviso. -/
theorem claim7_spo2_range :
    ∀ (redValues : List ℚ) (frameCount u : ℝ) (fingerMode : Bool),
      (redValues.length < 60 ∨ fingerMode = false →
        AIViz.calculateSpO2 redValues frameCount fingerMode u = (some 0, 0)) ∧
      (60 ≤ redValues.length → listMin redValues < listMax redValues →
        (AIViz.calculateSpO2 redValues frameCount true u).1 =
            some (specSpo2 redValues u) ∧
          70 ≤ specSpo2 redValues u ∧ specSpo2 redValues u ≤ 100) := by
  intro redValues frameCount u fingerMode
  constructor
  · intro h
    rw [AIViz.calculateSpO2, if_pos h]
  · intro h60 hmm
    have hdc := normalizeViz_mean_pos redValues hmm
    rw [meanOf] at hdc
    refine ⟨?_, ?_, ?_⟩
    · rw [AIViz.calculateSpO2,
        if_neg (by push_neg; exact ⟨by omega, by simp⟩),
        if_neg (ne_of_gt hdc)]
      simp only [specSpo2, meanOf, varOf]
      rw [mul_comm]
    · have h := jsRoundR_decimal_bounds
      simp only [specSpo2, meanOf, varOf]
      exact (h _).1
    · have h := jsRoundR_decimal_bounds
      simp only [specSpo2, meanOf, varOf]
      exact (h _).2

/-- Claim C7, counterexample: a perfectly flat 60-sample window normalizes
to all zeros, so `R = AC/DC = 0/0 = NaN` and the returned SpO2 is `NaN`
(`none`) — not a value in `[70, 100]` and not the `(0, 0)` sentinel (the
confidence component is still the finite 60). -/
theorem claim7_counterexample :
    AIViz.calculateSpO2 (List.replicate 60 5) 60 true (1/2) = (none, 60) := by
  have hmn : listMin (List.replicate 60 (5 : ℚ)) = 5 :=
    List.eq_of_mem_replicate (listMin_mem (by simp))
  have hmx : listMax (List.replicate 60 (5 : ℚ)) = 5 :=
    List.eq_of_mem_replicate (listMax_mem (by simp))
  have hnorm : AIViz.normalizeSignal (List.replicate 60 5) =
      List.replicate 60 0 := by
    simp only [AIViz.normalizeSignal, hmn, hmx, List.map_replicate]
    norm_num
  rw [AIViz.calculateSpO2]
  rw [if_neg (by simp)]
  rw [hnorm]
  simp only [List.length_replicate, List.map_replicate, listSum_replicate]
  norm_num [jsRoundR, jsRound, Real.sqrt_zero]

/-- Claim C7, witness for the amended statement: the empty window hits the
sentinel, and a 60-sample non-flat window (half zeros, half ones) yields a
finite SpO2 equal to the spec formula and inside `[70, 100]`. -/
theorem claim7_witness :
    AIViz.calculateSpO2 [] 0 true 0 = (some 0, 0) ∧
      ((AIViz.calculateSpO2 (List.replicate 30 0 ++ List.replicate 30 1) 60 true
          (1/2)).1 =
        some (specSpo2 (List.replicate 30 0 ++ List.replicate 30 1) (1/2)) ∧
      70 ≤ specSpo2 (List.replicate 30 0 ++ List.replicate 30 1) (1/2) ∧
        specSpo2 (List.replicate 30 0 ++ List.replicate 30 1) (1/2) ≤ 100) := by
  have hlen : (List.replicate 30 (0 : ℚ) ++ List.replicate 30 1).length = 60 := by
    simp
  have h0 : (0 : ℚ) ∈ List.replicate 30 (0 : ℚ) ++ List.replicate 30 1 := by
    simp
  have h1 : (1 : ℚ) ∈ List.replicate 30 (0 : ℚ) ++ List.replicate 30 1 := by
    simp
  have hmm : listMin (List.replicate 30 (0 : ℚ) ++ List.replicate 30 1) <
      listMax (List.replicate 30 (0 : ℚ) ++ List.replicate 30 1) := by
    have ha := listMin_le h0
    have hb := le_listMax h1
    linarith
  exact ⟨(claim7_spo2_range [] 0 0 true).1 (by norm_num),
    (claim7_spo2_range (List.replicate 30 0 ++ List.replicate 30 1) 60 (1/2)
      true).2 (by omega) hmm⟩
